import Mathlib

/-!
# httpin: the directive registry and the directive engine

Part A embeds `core/directive.go`: the two directive namespaces, the reserved
names, `RegisterDirective` and the `init` functions that populate the registry.
A Go panic is modelled as a returned `PanicValue` next to the registry state the
globals hold at the moment of the panic, so that a call that fails half way is
visible in the model.

Part B models, from the specification, the tag parser, the resolver tree
builder and the two entry points `Decode` and `NewRequest`, which the tests
`resolver_test.go`, `core/patch_test.go` and `core/required_test.go` exercise.

The definitions come first, then the lemmas, then the verified properties.
-/

namespace Httpin

/-! ## Part A: `core/directive.go` -/

/-- The Go type `func(*DirectiveRuntime) error`: a procedure that receives the
runtime of a field (type `R`), may update it, and returns `nil` (`none`) or an
error (`some e`, with `e : E`). -/
abbrev DirectiveFunc (R E : Type) : Type := R → R × Option E

/-- The interface `DirectiveExecutor` of `core/directive.go`: an `Encode` and a
`Decode` method. A nil interface value is `none : Option (DirectiveExecutor R E)`. -/
structure DirectiveExecutor (R E : Type) where
  /-- `Encode(*DirectiveRuntime) error` -/
  Encode : DirectiveFunc R E
  /-- `Decode(*DirectiveRuntime) error` -/
  Decode : DirectiveFunc R E

/-- The values a registration call panics with.
* `reservedExecutorName name`: `fmt.Errorf("reserved executor name: %q", name)`
  (the spec's `ReservedNameError`);
* `nilDirectiveExecutor`: `errors.New("nil directive executor")`
  (the spec's `InvalidExecutorError`);
* `duplicateExecutor name`: the namespace's name-conflict panic
  (the spec's `DuplicateNameError`);
* `nilExecutor name`: the namespace's own nil-executor panic;
* `nilDereference`: a method value taken from a nil interface. -/
inductive PanicValue where
  | reservedExecutorName (name : String)
  | nilDirectiveExecutor
  | duplicateExecutor (name : String)
  | nilExecutor (name : String)
  | nilDereference
  deriving DecidableEq, Repr

/-- Modelled from the spec: `owl.Namespace`, the name→executor table of the
library `github.com/ggicci/owl`, whose source is not part of the repository. It
is a Go `map[string]DirectiveExecutor`; a lookup returns `(executor, found)`. -/
structure Namespace (R E : Type) where
  /-- The map from directive name to executor. -/
  executors : String → Option (DirectiveFunc R E)

/-- The variadic flag `replace ...bool` as the namespace reads it,
`len(replace) > 0 && replace[0]`: given, and its first element true. -/
def forced (replace : List Bool) : Bool :=
  decide (0 < replace.length) && replace.headD false

/-- Modelled from the spec: `owl.NewNamespace()`, an empty table. -/
def NewNamespace {R E : Type} : Namespace R E :=
  ⟨fun _ => none⟩

/-- Modelled from the spec: `(*owl.Namespace).LookupExecutor(name)`. -/
def Namespace.LookupExecutor {R E : Type} (ns : Namespace R E) (name : String) :
    Option (DirectiveFunc R E) :=
  ns.executors name

/-- Modelled from the spec: `(*owl.Namespace).RegisterDirectiveExecutor(name, exe,
replace...)`. "Will panic if the name were taken or given executor is nil. Pass
parameter force (true) to ignore the name conflict": registration "fails with
`DuplicateNameError` if the name already exists and `force` is not set", "a nil
executor is rejected", otherwise the entry `name` is set to `exe`. The variadic
flag is set when it is given and its first element is true. Returns the table
after the call and the panic value, if any. -/
def Namespace.RegisterDirectiveExecutor {R E : Type} (ns : Namespace R E) (name : String)
    (exe : Option (DirectiveFunc R E)) (replace : List Bool) :
    Namespace R E × Option PanicValue :=
  let force := forced replace
  if (ns.executors name).isSome && !force then
    (ns, some (.duplicateExecutor name))
  else
    match exe with
    | none => (ns, some (.nilExecutor name))
    | some f => (⟨fun k => if k = name then some f else ns.executors k⟩, none)

/-- Modelled from the spec: `internal.PanicOnError(err)`, which panics with
`err` when `err` is not nil and returns otherwise. -/
def PanicOnError (err : Option PanicValue) : Except PanicValue Unit :=
  match err with
  | some e => .error e
  | none => .ok ()

/-- The package-level variables `decoderNamespace` and `encoderNamespace`. -/
structure Registry (R E : Type) where
  /-- `decoderNamespace` -/
  decoderNamespace : Namespace R E
  /-- `encoderNamespace` -/
  encoderNamespace : Namespace R E

/-- The `*owl.Namespace` argument of `registerDirectiveExecutorToNamespace`: a
pointer to one of the two package-level namespaces. -/
inductive NamespaceRef where
  | decoder
  | encoder
  deriving DecidableEq, Repr

/-- `reservedExecutorNames = []string{"decoder", "encoder"}` -/
def reservedExecutorNames : List String := ["decoder", "encoder"]

/-- The loop of `panicOnReservedExecutorName` over the reserved names. -/
def panicOnReservedLoop (name : String) : List String → Except PanicValue Unit
  | [] => .ok ()
  | reservedName :: rest =>
    if name = reservedName then
      match PanicOnError (some (.reservedExecutorName name)) with
      | .error p => .error p
      | .ok () => panicOnReservedLoop name rest
    else panicOnReservedLoop name rest

/-- `panicOnReservedExecutorName(name)` -/
def panicOnReservedExecutorName (name : String) : Except PanicValue Unit :=
  panicOnReservedLoop name reservedExecutorNames

/-- `asOwlDirectiveExecutor(directiveFunc)`: the wrapper calls `directiveFunc` on
the (converted) runtime pointer; the result is never a nil executor. -/
def asOwlDirectiveExecutor {R E : Type} (directiveFunc : DirectiveFunc R E) :
    Option (DirectiveFunc R E) :=
  some (fun dr => directiveFunc dr)

/-- `registerDirectiveExecutorToNamespace(ns, name, exe, force...)`, on the
registry state `s`. Returns the state after the call and the panic value, if
the call panicked. -/
def registerDirectiveExecutorToNamespace {R E : Type} (s : Registry R E) (ns : NamespaceRef)
    (name : String) (exe : Option (DirectiveExecutor R E)) (force : List Bool) :
    Registry R E × Option PanicValue :=
  match panicOnReservedExecutorName name with
  | .error p => (s, some p)
  | .ok () =>
    match (if exe.isNone then PanicOnError (some .nilDirectiveExecutor) else .ok ()) with
    | .error p => (s, some p)
    | .ok () =>
      match exe with
      | none => (s, some .nilDereference)
      | some e =>
        if ns = .decoder then
          let r := s.decoderNamespace.RegisterDirectiveExecutor name
            (asOwlDirectiveExecutor e.Decode) force
          ({ s with decoderNamespace := r.1 }, r.2)
        else
          let r := s.encoderNamespace.RegisterDirectiveExecutor name
            (asOwlDirectiveExecutor e.Encode) force
          ({ s with encoderNamespace := r.1 }, r.2)

/-- `RegisterDirective(name, executor, force...)`: the decode half first, then
the encode half; a panic of the first call skips the second. -/
def RegisterDirective {R E : Type} (s : Registry R E) (name : String)
    (executor : Option (DirectiveExecutor R E)) (force : List Bool) :
    Registry R E × Option PanicValue :=
  match registerDirectiveExecutorToNamespace s .decoder name executor force with
  | (s1, some p) => (s1, some p)
  | (s1, none) => registerDirectiveExecutorToNamespace s1 .encoder name executor force

/-- `directiveNoop`: "a DirectiveExecutor that does nothing". -/
def noopDirective {R E : Type} : DirectiveExecutor R E where
  Encode := fun dr => (dr, none)
  Decode := fun dr => (dr, none)

/-- The six executors registered by the first `init` function; their types
(`DirectvieForm`, `DirectiveQuery`, ...) are declared in other files. -/
structure Builtins (R E : Type) where
  /-- `&DirectvieForm{}` -/
  DirectvieForm : DirectiveExecutor R E
  /-- `&DirectiveQuery{}` -/
  DirectiveQuery : DirectiveExecutor R E
  /-- `&DirectiveHeader{}` -/
  DirectiveHeader : DirectiveExecutor R E
  /-- `&DirectiveBody{}` -/
  DirectiveBody : DirectiveExecutor R E
  /-- `&DirectiveRequired{}` -/
  DirectiveRequired : DirectiveExecutor R E
  /-- `&DirectiveDefault{}` -/
  DirectiveDefault : DirectiveExecutor R E

/-- Sequencing of two steps of an `init` function: a panic stops the sequence. -/
def andThen {R E : Type} (r : Registry R E × Option PanicValue)
    (next : Registry R E → Registry R E × Option PanicValue) :
    Registry R E × Option PanicValue :=
  match r with
  | (s, some p) => (s, some p)
  | (s, none) => next s

/-- The package-level variable initialisers: two fresh namespaces. -/
def newRegistry {R E : Type} : Registry R E :=
  ⟨NewNamespace, NewNamespace⟩

/-- The first `init` function: the six built-in directives. -/
def initBuiltins {R E : Type} (b : Builtins R E) (s : Registry R E) :
    Registry R E × Option PanicValue :=
  andThen (andThen (andThen (andThen (andThen
    (RegisterDirective s "form" (some b.DirectvieForm) [])
    (fun s => RegisterDirective s "query" (some b.DirectiveQuery) []))
    (fun s => RegisterDirective s "header" (some b.DirectiveHeader) []))
    (fun s => RegisterDirective s "body" (some b.DirectiveBody) []))
    (fun s => RegisterDirective s "required" (some b.DirectiveRequired) []))
    (fun s => RegisterDirective s "default" (some b.DirectiveDefault) [])

/-- The second `init` function: the `decoder` indicator of the decode namespace
and the `encoder` indicator of the encode namespace, registered on the
namespaces directly. -/
def initIndicators {R E : Type} (s : Registry R E) : Registry R E × Option PanicValue :=
  let d := s.decoderNamespace.RegisterDirectiveExecutor "decoder"
    (asOwlDirectiveExecutor (noopDirective (R := R) (E := E)).Decode) []
  match d.2 with
  | some p => ({ s with decoderNamespace := d.1 }, some p)
  | none =>
    let e := s.encoderNamespace.RegisterDirectiveExecutor "encoder"
      (asOwlDirectiveExecutor (noopDirective (R := R) (E := E)).Encode) []
    ({ decoderNamespace := d.1, encoderNamespace := e.1 }, e.2)

/-- Package initialisation: variables, then the `init` functions in source order. -/
def initPackage {R E : Type} (b : Builtins R E) : Registry R E × Option PanicValue :=
  andThen (initBuiltins b newRegistry) initIndicators

/-- The registry state after package initialisation. -/
def initialRegistry {R E : Type} (b : Builtins R E) : Registry R E :=
  (initPackage b).1

/-- The registry states reachable from the initial state by `RegisterDirective`
calls, whether a call returns or panics (and the panic is recovered). -/
inductive Reachable {R E : Type} (b : Builtins R E) : Registry R E → Prop where
  | init : Reachable b (initialRegistry b)
  | step (s : Registry R E) (name : String) (executor : Option (DirectiveExecutor R E))
      (force : List Bool) :
      Reachable b s → Reachable b (RegisterDirective s name executor force).1

/-- The name is one of the reserved executor names. -/
def isReserved (name : String) : Prop := name ∈ reservedExecutorNames

instance (name : String) : Decidable (isReserved name) := by
  unfold isReserved; infer_instance

/-! ## Part B: the resolver tree and the execution engine

The tag parser, the resolver tree builder, the directive runtime and the two
entry points `Decode` and `NewRequest` are not among the source files; only
their tests are. They are modelled here from the specification, on top of the
namespaces of Part A. File types and request bodies are left out. -/

/-- Modelled from the spec: `DirectiveSpec`, "one parsed directive occurrence on
a field tag": a name and the ordered raw arguments. -/
structure DirectiveSpec where
  /-- The directive name. -/
  name : String
  /-- The raw arguments, in order. -/
  argv : List String
  deriving DecidableEq, Repr

/-- Modelled from the spec: the build-time errors of the resolver tree builder
(§7) that the tag parser and the directive resolution raise. -/
inductive BuildError where
  | MalformedTagError (field : String)
  | UnknownDirectiveError (field : String) (directive : String)
  | MissingDecoderNameError
  | DecoderNotFoundError (decoder : String)
  deriving DecidableEq, Repr

/-- Modelled from the spec: the splitting of a tag text at every occurrence of
a separator; empty pieces are kept. -/
def splitOn (sep : Char) : List Char → List (List Char)
  | [] => [[]]
  | c :: cs =>
    if c = sep then [] :: splitOn sep cs
    else
      match splitOn sep cs with
      | [] => [[c]]
      | w :: ws => (c :: w) :: ws

/-- Modelled from the spec: one segment of a tag (§4.1), "`name` or
`name=arg1,arg2,...`; argument lists preserve order and allow empty entries".
A segment that is empty or has no name before `=` is malformed (`none`). -/
def parseDirective (segment : List Char) : Option DirectiveSpec :=
  let name := segment.takeWhile (fun c => c ≠ '=')
  if name = [] then none
  else
    match segment.dropWhile (fun c => c ≠ '=') with
    | [] => some ⟨String.mk name, []⟩
    | _ :: args => some ⟨String.mk name, (splitOn ',' args).map String.mk⟩

/-- Modelled from the spec: the segments of a tag, parsed in order; the first
malformed segment fails. -/
def parseSegments : List (List Char) → Option (List DirectiveSpec)
  | [] => some []
  | segment :: rest =>
    match parseDirective segment with
    | none => none
    | some d =>
      match parseSegments rest with
      | none => none
      | some ds => some (d :: ds)

/-- Modelled from the spec: the Tag Grammar Parser (§4.1), "directives are
separated by `;`". A field without a tag carries no directive. `none` stands
for `MalformedTagError`. -/
def parseTag (tag : String) : Option (List DirectiveSpec) :=
  if tag = "" then some [] else parseSegments (splitOn ';' tag.toList)

/-- Modelled from the spec: the request parameters, a Go `url.Values`: keys with
their lists of raw strings. -/
abbrev Values : Type := List (String × List String)

/-- Modelled from the spec: `values[key]`, the strings under a key; empty when
the key is absent. -/
def valuesGet : Values → String → List String
  | [], _ => []
  | (k, vs) :: rest, key => if k = key then vs else valuesGet rest key

/-- Modelled from the spec: `values[key] = vals`: sets the strings under a key. -/
def valuesSet : Values → String → List String → Values
  | [], key, vals => [(key, vals)]
  | (k, vs) :: rest, key, vals =>
    if k = key then (k, vals) :: rest else (k, vs) :: valuesSet rest key vals

/-- Modelled from the spec: the keys of a `url.Values`. -/
def valuesKeys (v : Values) : List String :=
  v.map Prod.fst

/-- Modelled from the spec: the request the engine reads or builds, as far as
the `query` and `form` directives use it. -/
structure Request where
  /-- The HTTP method. -/
  method : String
  /-- The request path. -/
  path : String
  /-- The query string parameters. -/
  query : Values
  /-- The form values. -/
  form : Values
  deriving DecidableEq, Repr

/-- Modelled from the spec: the field value of the runtime, "type-erased but
recoverable via the field's descriptor". -/
inductive Value where
  | str (s : String)
  | int (i : Int)
  | strs (l : List String)
  deriving DecidableEq, Repr

/-- Modelled from the spec: the "Go-level type descriptor" of a field, with the
conversions between raw request strings and values of the type that the
collaborators of the engine supply. A conversion fails with its cause. -/
structure TypeDescriptor where
  /-- The name of the type. -/
  name : String
  /-- The zero value of the type. -/
  zero : Value
  /-- Conversion of the raw strings of a request to a value of the type. -/
  fromStrings : List String → Except String Value
  /-- Conversion of a value of the type to raw strings. -/
  toStrings : Value → Except String (List String)

mutual
/-- Modelled from the spec: a declared type, as the resolver tree builder sees
it: a plain type, an optional wrapper `PatchField<T>`, or a struct with its
fields in declaration order. -/
inductive TypeDesc where
  | plain (descriptor : TypeDescriptor)
  | patch (descriptor : TypeDescriptor)
  | struct (descriptor : TypeDescriptor) (fields : List StructField)
/-- Modelled from the spec: a struct field: its name, its tag and its type. -/
inductive StructField where
  | mk (name : String) (tag : String) (type : TypeDesc)
end

/-- Modelled from the spec: the type descriptor of a declared type. -/
def TypeDesc.descriptor : TypeDesc → TypeDescriptor
  | .plain d => d
  | .patch d => d
  | .struct d _ => d

/-- Modelled from the spec: the declared type is the optional wrapper. -/
def TypeDesc.isPatch : TypeDesc → Bool
  | .patch _ => true
  | _ => false

/-- Modelled from the spec: the tag of a struct field. -/
def StructField.tag : StructField → String
  | .mk _ tag _ => tag

/-- Modelled from the spec: the `error` a directive executor returns: the
cause, and for a source directive the key and the offending raw value. -/
structure DirectiveError where
  /-- The underlying cause. -/
  message : String
  /-- The key the value was read from, if any. -/
  key : String
  /-- The offending raw value, if any. -/
  value : Option (List String)
  deriving DecidableEq, Repr

/-- Modelled from the spec: `DirectiveRuntime` (§4.4), the "execution context
for one field during one request": the directive being executed, the field's
type descriptor and current value, the in-flight request, and the contextual
storage (the keys that have been set). An executor reports an error by
returning it. -/
structure DirectiveRuntime where
  /-- The directive being executed. -/
  directive : DirectiveSpec
  /-- The descriptor of the field's type. -/
  type : TypeDescriptor
  /-- The field's current value. -/
  value : Value
  /-- The in-flight request. -/
  request : Request
  /-- The contextual storage: the keys set so far. -/
  context : List String

/-- Modelled from the spec: an executor of the engine, a directive function on
`DirectiveRuntime`. -/
abbrev Executor : Type := DirectiveFunc DirectiveRuntime DirectiveError

/-- Modelled from the spec: the context key by which a source directive marks
that a value was found. -/
def fieldSet : String := "FieldSet"

/-- Modelled from the spec: the field has been marked as set by an earlier directive. -/
def DirectiveRuntime.isFieldSet (rtm : DirectiveRuntime) : Bool :=
  decide (fieldSet ∈ rtm.context)

/-- Modelled from the spec: marks the field as set. -/
def DirectiveRuntime.markFieldSet (rtm : DirectiveRuntime) : DirectiveRuntime :=
  { rtm with context := fieldSet :: rtm.context }

/-- Modelled from the spec: `FieldResolver`, "the resolution plan for one struct
field": the field's name and path, its type, the "ordered list of resolved
DirectiveSpec+Executor pairs", and the user-named override "recorded separately
from the executor chain". -/
structure FieldResolver where
  /-- The struct field's name. -/
  name : String
  /-- The composed field path. -/
  path : List String
  /-- The descriptor of the field's type. -/
  type : TypeDescriptor
  /-- The field is an optional wrapper. -/
  isPatch : Bool
  /-- The resolved directive chain, in tag order. -/
  directives : List (DirectiveSpec × Executor)
  /-- The indicator directive naming a user override, if the tag has one. -/
  override : Option DirectiveSpec

/-- Modelled from the spec: the directive is the special `decoder` / `encoder`
indicator. -/
def isIndicator (d : DirectiveSpec) : Bool :=
  decide (d.name = "decoder") || decide (d.name = "encoder")

/-- Modelled from the spec: step 3 and 4 of the resolver tree builder (§4.3),
for the directives of one field in tag order. The indicator with an empty
argument fails with `MissingDecoderNameError`, with a name that is not among
the user-named overrides with `DecoderNotFoundError`; any other directive is
resolved in the namespace, and fails with `UnknownDirectiveError` if absent.
Returns the chain and the override indicator. -/
def resolveDirectives (ns : Namespace DirectiveRuntime DirectiveError)
    (overrides : String → Option Executor) (field : String) :
    List DirectiveSpec → Except BuildError (List (DirectiveSpec × Executor) × Option DirectiveSpec)
  | [] => .ok ([], none)
  | d :: rest =>
    if isIndicator d then
      match d.argv.head? with
      | none => .error .MissingDecoderNameError
      | some arg =>
        if arg = "" then .error .MissingDecoderNameError
        else
          match overrides arg with
          | none => .error (.DecoderNotFoundError arg)
          | some _ =>
            match resolveDirectives ns overrides field rest with
            | .error e => .error e
            | .ok (chain, _) => .ok (chain, some d)
    else
      match ns.LookupExecutor d.name with
      | none => .error (.UnknownDirectiveError field d.name)
      | some exe =>
        match resolveDirectives ns overrides field rest with
        | .error e => .error e
        | .ok (chain, o) => .ok ((d, exe) :: chain, o)

mutual
/-- Modelled from the spec: the fields of a struct type, "in declaration
order"; the first build-time error aborts the construction. -/
def buildFields (ns : Namespace DirectiveRuntime DirectiveError)
    (overrides : String → Option Executor) (parent : List String) :
    List StructField → Except BuildError (List FieldResolver)
  | [] => .ok []
  | f :: rest =>
    match buildField ns overrides parent f with
    | .error e => .error e
    | .ok frs =>
      match buildFields ns overrides parent rest with
      | .error e => .error e
      | .ok more => .ok (frs ++ more)
/-- Modelled from the spec: one field (§4.3, steps 1 to 5): parse the tag; a
struct-typed field that "carries no directives of its own" is expanded and its
leaf fields spliced in with a composed path; otherwise the directives are
resolved and stored in a new field resolver. -/
def buildField (ns : Namespace DirectiveRuntime DirectiveError)
    (overrides : String → Option Executor) (parent : List String) :
    StructField → Except BuildError (List FieldResolver)
  | .mk name tag type =>
    match parseTag tag with
    | none => .error (.MalformedTagError name)
    | some ds =>
      match type, ds with
      | .struct _ fields, [] => buildFields ns overrides (parent ++ [name]) fields
      | type, ds =>
        match resolveDirectives ns overrides name ds with
        | .error e => .error e
        | .ok (chain, o) =>
          .ok [⟨name, parent ++ [name], type.descriptor, type.isPatch, chain, o⟩]
end

/-- Modelled from the spec: `Build(structType)` (§4.3): the flattened index of
the leaf field resolvers of a struct type, or the build-time error. -/
def Build (ns : Namespace DirectiveRuntime DirectiveError)
    (overrides : String → Option Executor) (fields : List StructField) :
    Except BuildError (List FieldResolver) :=
  buildFields ns overrides [] fields

/-! ### The built-in source directives and `required` -/

/-- Modelled from the spec: the extraction shared by the source directives on
the decode side; the keys of the directive are tried in order: a key is
skipped when the field has already been set or the source holds no string
under it; otherwise the strings are converted to the field's type, and a
failed conversion is returned as the error of the key with its raw strings. -/
def extractKeys (source : Values) : List String → DirectiveRuntime →
    DirectiveRuntime × Option DirectiveError
  | [], rtm => (rtm, none)
  | key :: rest, rtm =>
    if rtm.isFieldSet then extractKeys source rest rtm
    else if valuesGet source key = [] then extractKeys source rest rtm
    else
      match rtm.type.fromStrings (valuesGet source key) with
      | .error cause => (rtm, some ⟨cause, key, some (valuesGet source key)⟩)
      | .ok v => extractKeys source rest ({ rtm with value := v }).markFieldSet

/-- Modelled from the spec: the decode half of the `form` directive, a "source
extraction directive marking whether a value was found": reads the form values
under the keys of the directive. -/
def formDecode : Executor :=
  fun rtm => extractKeys rtm.request.form rtm.directive.argv rtm

/-- Modelled from the spec: the decode half of the `query` directive: reads the
query parameters under the keys of the directive. -/
def queryDecode : Executor :=
  fun rtm => extractKeys rtm.request.query rtm.directive.argv rtm

/-- Modelled from the spec: the decode half of the `required` directive, "reading
a found flag set by a preceding source directive": an error with no key and no
value when the field has not been set. -/
def requiredDecode : Executor :=
  fun rtm =>
    if rtm.isFieldSet then (rtm, none)
    else (rtm, some ⟨"missing required field", "", none⟩)

/-- Modelled from the spec: the encode side shared by the source directives: the
value is converted to raw strings and written under the first key of the directive by `write`; nothing is written
when the field has already been written by an earlier directive. -/
def encodeWith (write : Request → String → List String → Request) : Executor :=
  fun rtm =>
    if rtm.isFieldSet then (rtm, none)
    else
      match rtm.directive.argv.head? with
      | none => (rtm, some ⟨"missing key", "", none⟩)
      | some key =>
        match rtm.type.toStrings rtm.value with
        | .error cause => (rtm, some ⟨cause, key, none⟩)
        | .ok vals => (({ rtm with request := write rtm.request key vals }).markFieldSet, none)

/-- Modelled from the spec: the encode half of the `query` directive: writes the
field under its key into the query string. -/
def queryEncode : Executor :=
  encodeWith (fun req key vals => { req with query := valuesSet req.query key vals })

/-- Modelled from the spec: the encode half of the `form` directive: writes the
field under its key into the form body. -/
def formEncode : Executor :=
  encodeWith (fun req key vals => { req with form := valuesSet req.form key vals })

/-! ### The execution engine -/

/-- Modelled from the spec: `InvalidFieldError` (§7): "field name, directive
name, offending raw value, and underlying cause", and the key of the value. -/
structure InvalidFieldError where
  /-- The struct field's name. -/
  Field : String
  /-- The name of the responsible directive. -/
  Directive : String
  /-- The key the value was read from; empty if there is none. -/
  Key : String
  /-- The offending raw value; nil (`none`) if there is none. -/
  Value : Option (List String)
  /-- The underlying cause. -/
  ErrorMessage : String
  deriving DecidableEq, Repr

/-- Modelled from the spec: the slot of a leaf field in a struct instance: the
value, and the presence flag (`Valid`) of an optional field. -/
structure FieldValue where
  /-- The stored value. -/
  value : Value
  /-- The presence flag of an optional field. -/
  valid : Bool
  deriving DecidableEq, Repr

/-- Modelled from the spec: the run of a field's directive chain (§4.4, §4.5):
the directives execute "strictly in tag declaration order" on the runtime of
the field; an error "immediately stops further directives in that field's
chain". Returns the runtime and, on error, the responsible directive's name
and the error. -/
def runChain : List (DirectiveSpec × Executor) → DirectiveRuntime →
    DirectiveRuntime × Option (String × DirectiveError)
  | [], rtm => (rtm, none)
  | (d, exe) :: rest, rtm =>
    match exe { rtm with directive := d } with
    | (rtm1, some err) => (rtm1, some (d.name, err))
    | (rtm1, none) => runChain rest rtm1

/-- Modelled from the spec: the execution of one field's plan on a runtime: "a
field marked with the decoder override directive skips its normal chain and
instead invokes the user-named decoder", whose availability is checked again;
any other field runs its chain. -/
def runField (overrides : String → Option Executor) (fr : FieldResolver)
    (rtm : DirectiveRuntime) : DirectiveRuntime × Option (String × DirectiveError) :=
  match fr.override with
  | some d =>
    match overrides (d.argv.headD "") with
    | none => (rtm, some (d.name, ⟨"decoder not found", "", none⟩))
    | some exe =>
      match exe { rtm with directive := d } with
      | (rtm1, some err) => (rtm1, some (d.name, err))
      | (rtm1, none) => (rtm1, none)
  | none => runChain fr.directives rtm

/-- Modelled from the spec: the wrapping of a chain error as an
`InvalidFieldError` of the field. -/
def invalidField (fr : FieldResolver) (e : String × DirectiveError) : InvalidFieldError :=
  ⟨fr.name, e.1, e.2.key, e.2.value, e.2.message⟩

/-- Modelled from the spec: the decoding of one leaf field (§4.5): a fresh
runtime "bound to that field's slot in the instance and to the incoming
request", holding the zero value; the presence flag is set "only if at least
one directive actually produced a value". -/
def decodeField (overrides : String → Option Executor) (req : Request) (fr : FieldResolver) :
    Except InvalidFieldError FieldValue :=
  match runField overrides fr ⟨⟨"", []⟩, fr.type, fr.type.zero, req, []⟩ with
  | (_, some e) => .error (invalidField fr e)
  | (rtm, none) => .ok ⟨rtm.value, rtm.isFieldSet⟩

/-- Modelled from the spec: the errors among the per-field results, in field order. -/
def fieldErrors : List (Except InvalidFieldError FieldValue) → List InvalidFieldError
  | [] => []
  | .error e :: rest => e :: fieldErrors rest
  | .ok _ :: rest => fieldErrors rest

/-- Modelled from the spec: the values among the per-field results, in field order. -/
def fieldValues : List (Except InvalidFieldError FieldValue) → List FieldValue
  | [] => []
  | .error _ :: rest => fieldValues rest
  | .ok v :: rest => v :: fieldValues rest

/-- Modelled from the spec: `Decode(request)` (§4.5): every leaf field is decoded
independently, in order; "errors are collected, not fail-fast across the whole
struct", and on any field error the call returns the collected errors and no
struct ("partial success is never returned to the caller"). -/
def Decode (overrides : String → Option Executor) (tree : List FieldResolver) (req : Request) :
    Except (List InvalidFieldError) (List FieldValue) :=
  match fieldErrors (tree.map (decodeField overrides req)) with
  | [] => .ok (fieldValues (tree.map (decodeField overrides req)))
  | e :: es => .error (e :: es)

/-- Modelled from the spec: the encoding of one leaf field into the request
being built (§4.5): an optional field "whose presence flag is false" is
"skipped entirely by the engine before the chain even runs"; any other field
runs its plan on a runtime holding the field's value, writing into the request. -/
def encodeField (overrides : String → Option Executor) (fr : FieldResolver) (v : FieldValue)
    (req : Request) : Request × Option InvalidFieldError :=
  if fr.isPatch && !v.valid then (req, none)
  else
    match runField overrides fr ⟨⟨"", []⟩, fr.type, v.value, req, []⟩ with
    | (rtm, some e) => (rtm.request, some (invalidField fr e))
    | (rtm, none) => (rtm.request, none)

/-- Modelled from the spec: the walk of `NewRequest` over the leaf fields of an
instance, encoded in order into the request; the errors are collected. -/
def encodeFields (overrides : String → Option Executor) :
    List FieldResolver → List FieldValue → Request → Request × List InvalidFieldError
  | fr :: tree, v :: inst, req =>
    match encodeField overrides fr v req with
    | (req1, some e) =>
      ((encodeFields overrides tree inst req1).1, e :: (encodeFields overrides tree inst req1).2)
    | (req1, none) => encodeFields overrides tree inst req1
  | _, _, req => (req, [])

/-- Modelled from the spec: `NewRequest(method, path, structInstance)` (§4.5):
"allocates a bare outgoing request", walks the tree and runs the encode side of
every field; on any field error the call returns the errors and no request. -/
def NewRequest (overrides : String → Option Executor) (tree : List FieldResolver)
    (method path : String) (inst : List FieldValue) : Except (List InvalidFieldError) Request :=
  match (encodeFields overrides tree inst ⟨method, path, [], []⟩).2 with
  | [] => .ok (encodeFields overrides tree inst ⟨method, path, [], []⟩).1
  | e :: es => .error (e :: es)

/-- The field is an optional field with no override whose chain is the single
source directive `query=<key>...` or `form=<key>...`, resolved to the encode
half of that directive. -/
def IsOptionalSource (fr : FieldResolver) : Prop :=
  fr.isPatch = true ∧ fr.override = none ∧
  ((∃ key more, fr.directives = [(⟨"query", key :: more⟩, queryEncode)]) ∨
   (∃ key more, fr.directives = [(⟨"form", key :: more⟩, formEncode)]))

/-- The first keys of the single-directive fields of an instance that are
present (`valid`) and whose directive has the given name, in field order. -/
def presentKeys (directive : String) : List FieldResolver → List FieldValue → List String
  | fr :: tree, v :: inst =>
    if v.valid then
      match fr.directives with
      | [(d, _)] =>
        if d.name = directive then d.argv.head?.toList ++ presentKeys directive tree inst
        else presentKeys directive tree inst
      | _ => presentKeys directive tree inst
    else presentKeys directive tree inst
  | _, _ => []

/-! ### Sample data for the registry -/

/-- A sample executor over a numeric runtime: `Decode` adds `k`, `Encode`
subtracts `k` and reports an error on a zero runtime. -/
def sampleExecutor (k : Nat) : DirectiveExecutor Nat String where
  Encode := fun dr => (dr - k, if dr = 0 then some "empty" else none)
  Decode := fun dr => (dr + k, none)

/-- Sample built-in executors. -/
def sampleBuiltins : Builtins Nat String where
  DirectvieForm := sampleExecutor 1
  DirectiveQuery := sampleExecutor 2
  DirectiveHeader := sampleExecutor 3
  DirectiveBody := sampleExecutor 4
  DirectiveRequired := sampleExecutor 5
  DirectiveDefault := sampleExecutor 6

/-! ### Sample data for the engine: the types of the tests -/

/-- A decimal digit's value. -/
def digitValue (c : Char) : Option Nat :=
  if '0' ≤ c ∧ c ≤ '9' then some (c.toNat - '0'.toNat) else none

/-- Reads a non-empty run of decimal digits. -/
def readDigits : List Char → Nat → Option Nat
  | [], acc => some acc
  | c :: cs, acc =>
    match digitValue c with
    | none => none
    | some d => readDigits cs (10 * acc + d)

/-- Reads a decimal integer with an optional sign. -/
def readInt (s : String) : Option Int :=
  match s.toList with
  | [] => none
  | '-' :: c :: cs => (readDigits (c :: cs) 0).map (fun n => - (n : Int))
  | '+' :: c :: cs => (readDigits (c :: cs) 0).map (fun n => (n : Int))
  | cs => (readDigits cs 0).map (fun n => (n : Int))

/-- Writes a natural number in decimal, least significant digit last. -/
def showDigits : Nat → Nat → List Char
  | 0, _ => []
  | fuel + 1, n =>
    if n < 10 then [Char.ofNat (n + 48)]
    else showDigits fuel (n / 10) ++ [Char.ofNat (n % 10 + 48)]

/-- Writes an integer in decimal. -/
def showInt (i : Int) : String :=
  if i < 0 then String.mk ('-' :: showDigits (i.natAbs + 1) i.natAbs)
  else String.mk (showDigits (i.natAbs + 1) i.natAbs)

/-- The sample descriptor of `int`: the first raw string, read as a decimal. -/
def intType : TypeDescriptor where
  name := "int"
  zero := .int 0
  fromStrings := fun vals =>
    match readInt (vals.headD "") with
    | some i => .ok (.int i)
    | none => .error "invalid integer"
  toStrings := fun v =>
    match v with
    | .int i => .ok [showInt i]
    | _ => .error "not an integer"

/-- The sample descriptor of `string`: the first raw string. -/
def stringType : TypeDescriptor where
  name := "string"
  zero := .str ""
  fromStrings := fun vals => .ok (.str (vals.headD ""))
  toStrings := fun v =>
    match v with
    | .str s => .ok [s]
    | _ => .error "not a string"

/-- The sample descriptor of `[]string`: all raw strings. -/
def stringsType : TypeDescriptor where
  name := "[]string"
  zero := .strs []
  fromStrings := fun vals => .ok (.strs vals)
  toStrings := fun v =>
    match v with
    | .strs l => .ok l
    | _ => .error "not a list of strings"

/-- The sample descriptor of `time.Time`, kept in its textual form. -/
def timeType : TypeDescriptor where
  name := "time.Time"
  zero := .str "0001-01-01T00:00:00Z"
  fromStrings := fun vals =>
    if (vals.headD "").length < 20 then .error "invalid time" else .ok (.str (vals.headD ""))
  toStrings := fun v =>
    match v with
    | .str s => .ok [s]
    | _ => .error "not a time"

/-- The sample decode namespace: `form`, `query`, `required` and the `decoder`
indicator. -/
def sampleDecoders : Namespace DirectiveRuntime DirectiveError :=
  let ns1 := (NewNamespace.RegisterDirectiveExecutor "form" (some formDecode) []).1
  let ns2 := (ns1.RegisterDirectiveExecutor "query" (some queryDecode) []).1
  let ns3 := (ns2.RegisterDirectiveExecutor "required" (some requiredDecode) []).1
  (ns3.RegisterDirectiveExecutor "decoder" (asOwlDirectiveExecutor noopDirective.Decode) []).1

/-- The sample encode namespace: `form`, `query` and the `encoder` indicator. -/
def sampleEncoders : Namespace DirectiveRuntime DirectiveError :=
  let ns1 := (NewNamespace.RegisterDirectiveExecutor "form" (some formEncode) []).1
  let ns2 := (ns1.RegisterDirectiveExecutor "query" (some queryEncode) []).1
  (ns2.RegisterDirectiveExecutor "encoder" (asOwlDirectiveExecutor noopDirective.Encode) []).1

/-- No user-named override is registered. -/
def noOverrides : String → Option Executor :=
  fun _ => none

/-- `AccountPatch` of `core/patch_test.go`, without its file fields. -/
def AccountPatch : List StructField :=
  [.mk "Email" "form=email" (.patch stringType),
   .mk "Age" "form=age" (.patch intType),
   .mk "Hobbies" "form=hobbies" (.patch stringsType)]

/-- `RequiredQuery` of `core/required_test.go`. -/
def RequiredQuery : List StructField :=
  [.mk "CreatedAt" "form=created_at;required" (.plain timeType),
   .mk "Color" "form=colour,color" (.plain stringType)]

/-- `ListQuery` of `TestPatchField_NewRequest`. -/
def ListQuery : List StructField :=
  [.mk "Username" "query=username" (.patch stringType),
   .mk "Age" "query=age" (.patch intType),
   .mk "State" "query=state[]" (.patch stringsType)]

/-- The resolver tree of a sample struct type, empty if the build fails. -/
def treeOf (ns : Namespace DirectiveRuntime DirectiveError) (fields : List StructField) :
    List FieldResolver :=
  match Build ns noOverrides fields with
  | .ok tree => tree
  | .error _ => []

/-- The encode-side resolver of `ListQuery.Username`. -/
def usernameResolver : FieldResolver :=
  ⟨"Username", ["Username"], stringType, true, [(⟨"query", ["username"]⟩, queryEncode)], none⟩

/-- The encode-side resolver of `ListQuery.Age`. -/
def ageResolver : FieldResolver :=
  ⟨"Age", ["Age"], intType, true, [(⟨"query", ["age"]⟩, queryEncode)], none⟩

/-- The encode-side resolver of `ListQuery.State`. -/
def stateResolver : FieldResolver :=
  ⟨"State", ["State"], stringsType, true, [(⟨"query", ["state[]"]⟩, queryEncode)], none⟩

/-- The first instance of `TestPatchField_NewRequest`: `Username` present, `Age`
stored as 18 but absent, `State` absent. -/
def sampleListQuery : List FieldValue :=
  [⟨.str "ggicci", true⟩, ⟨.int 18, false⟩, ⟨.strs [], false⟩]

theorem panicOnReservedExecutorName_of_reserved (name : String) (h : isReserved name) :
    panicOnReservedExecutorName name = .error (.reservedExecutorName name) := by
  unfold isReserved reservedExecutorNames at h
  simp only [List.mem_cons, List.mem_singleton, List.not_mem_nil, or_false] at h
  rcases h with h | h <;> subst h <;>
    simp [panicOnReservedExecutorName, reservedExecutorNames, panicOnReservedLoop, PanicOnError]

theorem panicOnReservedExecutorName_of_not_reserved (name : String) (h : ¬ isReserved name) :
    panicOnReservedExecutorName name = .ok () := by
  unfold isReserved reservedExecutorNames at h
  simp only [List.mem_cons, List.mem_singleton, List.not_mem_nil, or_false, not_or] at h
  simp [panicOnReservedExecutorName, reservedExecutorNames, panicOnReservedLoop, h.1, h.2]

theorem forced_eq_true_iff (force : List Bool) : forced force = true ↔ force.head? = some true := by
  cases force with
  | nil => simp [forced]
  | cons a t => simp [forced]

/-- The decode half of a registration with a usable name and executor. -/
theorem registerToNamespace_decoder {R E : Type} (s : Registry R E) (name : String)
    (e : DirectiveExecutor R E) (force : List Bool) (h : ¬ isReserved name) :
    registerDirectiveExecutorToNamespace s .decoder name (some e) force =
      if (s.decoderNamespace.executors name).isSome && !forced force then
        (s, some (.duplicateExecutor name))
      else
        ({ s with decoderNamespace :=
            ⟨fun k => if k = name then some (fun dr => e.Decode dr)
              else s.decoderNamespace.executors k⟩ }, none) := by
  simp only [registerDirectiveExecutorToNamespace, panicOnReservedExecutorName_of_not_reserved name h,
    Namespace.RegisterDirectiveExecutor, asOwlDirectiveExecutor, Option.isNone_some,
    Bool.false_eq_true, if_false, if_true, reduceCtorEq]
  split_ifs <;> rfl

/-- The encode half of a registration with a usable name and executor. -/
theorem registerToNamespace_encoder {R E : Type} (s : Registry R E) (name : String)
    (e : DirectiveExecutor R E) (force : List Bool) (h : ¬ isReserved name) :
    registerDirectiveExecutorToNamespace s .encoder name (some e) force =
      if (s.encoderNamespace.executors name).isSome && !forced force then
        (s, some (.duplicateExecutor name))
      else
        ({ s with encoderNamespace :=
            ⟨fun k => if k = name then some (fun dr => e.Encode dr)
              else s.encoderNamespace.executors k⟩ }, none) := by
  simp only [registerDirectiveExecutorToNamespace, panicOnReservedExecutorName_of_not_reserved name h,
    Namespace.RegisterDirectiveExecutor, asOwlDirectiveExecutor, Option.isNone_some,
    Bool.false_eq_true, if_false, if_true, reduceCtorEq]
  split_ifs <;> rfl

theorem registerDirective_reserved_eq {R E : Type} (s : Registry R E) (name : String)
    (exe : Option (DirectiveExecutor R E)) (force : List Bool) (h : isReserved name) :
    RegisterDirective s name exe force = (s, some (.reservedExecutorName name)) := by
  simp [RegisterDirective, registerDirectiveExecutorToNamespace,
    panicOnReservedExecutorName_of_reserved name h]

theorem registerDirective_nil_eq {R E : Type} (s : Registry R E) (name : String)
    (force : List Bool) (h : ¬ isReserved name) :
    RegisterDirective s name (none : Option (DirectiveExecutor R E)) force =
      (s, some .nilDirectiveExecutor) := by
  simp [RegisterDirective, registerDirectiveExecutorToNamespace,
    panicOnReservedExecutorName_of_not_reserved name h, PanicOnError]

/-- One `RegisterDirective` call with a usable name and executor, in closed form. -/
theorem registerDirective_eq {R E : Type} (s : Registry R E) (name : String)
    (e : DirectiveExecutor R E) (force : List Bool) (h : ¬ isReserved name) :
    RegisterDirective s name (some e) force =
      if (s.decoderNamespace.executors name).isSome && !forced force then
        (s, some (.duplicateExecutor name))
      else if (s.encoderNamespace.executors name).isSome && !forced force then
        ({ s with decoderNamespace :=
            ⟨fun k => if k = name then some (fun dr => e.Decode dr)
              else s.decoderNamespace.executors k⟩ }, some (.duplicateExecutor name))
      else
        ({ decoderNamespace :=
            ⟨fun k => if k = name then some (fun dr => e.Decode dr)
              else s.decoderNamespace.executors k⟩,
           encoderNamespace :=
            ⟨fun k => if k = name then some (fun dr => e.Encode dr)
              else s.encoderNamespace.executors k⟩ }, none) := by
  unfold RegisterDirective
  rw [registerToNamespace_decoder s name e force h]
  by_cases hd : ((s.decoderNamespace.executors name).isSome && !forced force) = true
  · simp only [hd, if_true]
  · simp only [hd, if_false, Bool.false_eq_true]
    rw [registerToNamespace_encoder _ name e force h]

/-- Package initialisation does not panic, and leaves exactly the six built-in
directives in both namespaces plus the two indicators. -/
theorem initPackage_eq {R E : Type} (b : Builtins R E) :
    initPackage b =
      ({ decoderNamespace := ⟨fun k =>
            if k = "decoder" then some (fun dr => (noopDirective (R := R) (E := E)).Decode dr)
            else if k = "default" then some (fun dr => b.DirectiveDefault.Decode dr)
            else if k = "required" then some (fun dr => b.DirectiveRequired.Decode dr)
            else if k = "body" then some (fun dr => b.DirectiveBody.Decode dr)
            else if k = "header" then some (fun dr => b.DirectiveHeader.Decode dr)
            else if k = "query" then some (fun dr => b.DirectiveQuery.Decode dr)
            else if k = "form" then some (fun dr => b.DirectvieForm.Decode dr)
            else none⟩,
         encoderNamespace := ⟨fun k =>
            if k = "encoder" then some (fun dr => (noopDirective (R := R) (E := E)).Encode dr)
            else if k = "default" then some (fun dr => b.DirectiveDefault.Encode dr)
            else if k = "required" then some (fun dr => b.DirectiveRequired.Encode dr)
            else if k = "body" then some (fun dr => b.DirectiveBody.Encode dr)
            else if k = "header" then some (fun dr => b.DirectiveHeader.Encode dr)
            else if k = "query" then some (fun dr => b.DirectiveQuery.Encode dr)
            else if k = "form" then some (fun dr => b.DirectvieForm.Encode dr)
            else none⟩ }, none) := by
  have hform : ¬ isReserved "form" := by decide
  have hquery : ¬ isReserved "query" := by decide
  have hheader : ¬ isReserved "header" := by decide
  have hbody : ¬ isReserved "body" := by decide
  have hrequired : ¬ isReserved "required" := by decide
  have hdefault : ¬ isReserved "default" := by decide
  simp [initPackage, initBuiltins, andThen, initIndicators, newRegistry, NewNamespace,
    registerDirective_eq, hform, hquery, hheader, hbody, hrequired, hdefault, forced,
    Namespace.RegisterDirectiveExecutor, asOwlDirectiveExecutor]

/-- The two namespaces hold the same non-reserved names. -/
def Paired {R E : Type} (s : Registry R E) : Prop :=
  ∀ n, ¬ isReserved n →
    ((s.decoderNamespace.LookupExecutor n).isSome ↔ (s.encoderNamespace.LookupExecutor n).isSome)

/-- The `decoder` and `encoder` indicators are the no-op executors. -/
def IndicatorsKept {R E : Type} (s : Registry R E) : Prop :=
  s.decoderNamespace.LookupExecutor "decoder"
      = asOwlDirectiveExecutor (noopDirective (R := R) (E := E)).Decode ∧
  s.encoderNamespace.LookupExecutor "encoder"
      = asOwlDirectiveExecutor (noopDirective (R := R) (E := E)).Encode

/-- A call leaves every entry other than `name` as it was, in both namespaces. -/
theorem registerDirective_lookup_of_ne {R E : Type} (s : Registry R E) (name : String)
    (exe : Option (DirectiveExecutor R E)) (force : List Bool) (n : String) (hn : n ≠ name) :
    (RegisterDirective s name exe force).1.decoderNamespace.LookupExecutor n
        = s.decoderNamespace.LookupExecutor n ∧
    (RegisterDirective s name exe force).1.encoderNamespace.LookupExecutor n
        = s.encoderNamespace.LookupExecutor n := by
  by_cases hres : isReserved name
  · rw [registerDirective_reserved_eq s name exe force hres]; exact ⟨rfl, rfl⟩
  · cases exe with
    | none => rw [registerDirective_nil_eq s name force hres]; exact ⟨rfl, rfl⟩
    | some e =>
      rw [registerDirective_eq s name e force hres]
      split_ifs <;> simp [Namespace.LookupExecutor, hn]

/-- A call never removes an entry, in either namespace. -/
theorem registerDirective_lookup_isSome {R E : Type} (s : Registry R E) (name : String)
    (exe : Option (DirectiveExecutor R E)) (force : List Bool) (n : String) :
    ((s.decoderNamespace.LookupExecutor n).isSome →
      ((RegisterDirective s name exe force).1.decoderNamespace.LookupExecutor n).isSome) ∧
    ((s.encoderNamespace.LookupExecutor n).isSome →
      ((RegisterDirective s name exe force).1.encoderNamespace.LookupExecutor n).isSome) := by
  by_cases hn : n = name
  · subst hn
    by_cases hres : isReserved n
    · rw [registerDirective_reserved_eq s n exe force hres]; exact ⟨id, id⟩
    · cases exe with
      | none => rw [registerDirective_nil_eq s n force hres]; exact ⟨id, id⟩
      | some e =>
        rw [registerDirective_eq s n e force hres]
        split_ifs <;> simp [Namespace.LookupExecutor]
  · have h := registerDirective_lookup_of_ne s name exe force n hn
    rw [h.1, h.2]; exact ⟨id, id⟩

/-- A call leaves the entries of the reserved names as they were. -/
theorem registerDirective_lookup_reserved {R E : Type} (s : Registry R E) (name : String)
    (exe : Option (DirectiveExecutor R E)) (force : List Bool) (n : String)
    (hn : isReserved n) :
    (RegisterDirective s name exe force).1.decoderNamespace.LookupExecutor n
        = s.decoderNamespace.LookupExecutor n ∧
    (RegisterDirective s name exe force).1.encoderNamespace.LookupExecutor n
        = s.encoderNamespace.LookupExecutor n := by
  by_cases h : n = name
  · subst h
    rw [registerDirective_reserved_eq s n exe force hn]; exact ⟨rfl, rfl⟩
  · exact registerDirective_lookup_of_ne s name exe force n h

theorem paired_registerDirective {R E : Type} (s : Registry R E) (name : String)
    (exe : Option (DirectiveExecutor R E)) (force : List Bool) (hs : Paired s) :
    Paired (RegisterDirective s name exe force).1 := by
  intro n hnres
  by_cases hn : n = name
  · subst hn
    cases exe with
    | none => rw [registerDirective_nil_eq s n force hnres]; exact hs n hnres
    | some e =>
      have hp := hs n hnres
      simp only [Namespace.LookupExecutor] at hp
      rw [registerDirective_eq s n e force hnres]
      by_cases hf : forced force = true
      · simp [Namespace.LookupExecutor, hf]
      · by_cases hd : (s.decoderNamespace.executors n).isSome = true
        · simp [Namespace.LookupExecutor, hf, hd]
          exact hp.1 hd
        · have he : ¬ (s.encoderNamespace.executors n).isSome = true := fun h => hd (hp.2 h)
          simp [Namespace.LookupExecutor, hf, hd, he]
  · have h := registerDirective_lookup_of_ne s name exe force n hn
    rw [h.1, h.2]; exact hs n hnres

theorem paired_initialRegistry {R E : Type} (b : Builtins R E) : Paired (initialRegistry b) := by
  intro n hn
  unfold isReserved reservedExecutorNames at hn
  simp only [List.mem_cons, List.mem_singleton, List.not_mem_nil, or_false, not_or] at hn
  simp only [initialRegistry, initPackage_eq, Namespace.LookupExecutor, hn.1, hn.2, if_false]
  split_ifs <;> simp

theorem indicatorsKept_initialRegistry {R E : Type} (b : Builtins R E) :
    IndicatorsKept (initialRegistry b) := by
  simp [IndicatorsKept, initialRegistry, initPackage_eq, Namespace.LookupExecutor,
    asOwlDirectiveExecutor]

theorem paired_of_reachable {R E : Type} (b : Builtins R E) (s : Registry R E)
    (hs : Reachable b s) : Paired s := by
  induction hs with
  | init => exact paired_initialRegistry b
  | step s name exe force _ ih => exact paired_registerDirective s name exe force ih

theorem indicatorsKept_of_reachable {R E : Type} (b : Builtins R E) (s : Registry R E)
    (hs : Reachable b s) : IndicatorsKept s := by
  induction hs with
  | init => exact indicatorsKept_initialRegistry b
  | step s name exe force _ ih =>
    have hd := registerDirective_lookup_reserved s name exe force "decoder" (by decide)
    have he := registerDirective_lookup_reserved s name exe force "encoder" (by decide)
    exact ⟨hd.1.trans ih.1, he.2.trans ih.2⟩

/-! ### Lemmas on the resolver tree builder -/

theorem fieldErrors_append (xs ys : List (Except InvalidFieldError FieldValue)) :
    fieldErrors (xs ++ ys) = fieldErrors xs ++ fieldErrors ys := by
  induction xs with
  | nil => rfl
  | cons x xs ih =>
    cases x <;> simp [fieldErrors, ih]

theorem fieldErrors_of_all_ok (xs : List (Except InvalidFieldError FieldValue))
    (h : ∀ x ∈ xs, ∃ v, x = .ok v) : fieldErrors xs = [] := by
  induction xs with
  | nil => rfl
  | cons x xs ih =>
    obtain ⟨v, hv⟩ := h x (List.mem_cons_self _ _)
    subst hv
    simpa [fieldErrors] using ih (fun y hy => h y (List.mem_cons_of_mem _ hy))

theorem mem_fieldErrors (xs : List (Except InvalidFieldError FieldValue))
    (e : InvalidFieldError) (h : Except.error e ∈ xs) : e ∈ fieldErrors xs := by
  induction xs with
  | nil => cases h
  | cons x xs ih =>
    rcases List.mem_cons.1 h with hx | hx
    · subst hx; simp [fieldErrors]
    · cases x with
      | error e2 => simp [fieldErrors, ih hx]
      | ok v => simpa [fieldErrors] using ih hx

/-- A field of the tree whose decoding fails makes `Decode` fail with the
collected errors, the field's error among them; it is the first of them when
the fields before it decode. -/
theorem decode_error_of_field (overrides : String → Option Executor)
    (tree : List FieldResolver) (req : Request) (fr : FieldResolver) (e : InvalidFieldError)
    (hmem : fr ∈ tree) (hfield : decodeField overrides req fr = .error e) :
    ∃ errs, Decode overrides tree req = .error errs ∧ e ∈ errs ∧
      ∀ pre post, tree = pre ++ fr :: post →
        (∀ f ∈ pre, ∃ v, decodeField overrides req f = .ok v) → errs.head? = some e := by
  have hin : e ∈ fieldErrors (tree.map (decodeField overrides req)) := by
    apply mem_fieldErrors
    rw [← hfield]
    exact List.mem_map_of_mem _ hmem
  refine ⟨fieldErrors (tree.map (decodeField overrides req)), ?_, hin, ?_⟩
  · unfold Decode
    cases hl : fieldErrors (tree.map (decodeField overrides req)) with
    | nil => rw [hl] at hin; cases hin
    | cons a as => rfl
  · intro pre post htree hpre
    subst htree
    have h0 : fieldErrors (pre.map (decodeField overrides req)) = [] := by
      apply fieldErrors_of_all_ok
      intro x hx
      obtain ⟨f, hf, rfl⟩ := List.mem_map.1 hx
      exact hpre f hf
    simp [fieldErrors_append, h0, hfield, fieldErrors]

/-- A source directive on a field not yet set fails on the first key that holds
strings, when these cannot be converted to the field's type. -/
theorem extractKeys_conversion_error (source : Values) (before after : List String)
    (key : String) (cause : String) (rtm : DirectiveRuntime)
    (hset : rtm.isFieldSet = false)
    (hbefore : ∀ k ∈ before, valuesGet source k = [])
    (hne : valuesGet source key ≠ [])
    (hconv : rtm.type.fromStrings (valuesGet source key) = .error cause) :
    extractKeys source (before ++ key :: after) rtm
      = (rtm, some ⟨cause, key, some (valuesGet source key)⟩) := by
  induction before with
  | nil => simp [extractKeys, hset, hne, hconv]
  | cons k before ih =>
    have hk := hbefore k (List.mem_cons_self _ _)
    simp only [List.cons_append, extractKeys, hset, hk, if_true, Bool.false_eq_true, if_false]
    exact ih (fun y hy => hbefore y (List.mem_cons_of_mem _ hy))

/-- A source directive leaves the runtime as it is when no key holds a string. -/
theorem extractKeys_nothing_found (source : Values) (keys : List String)
    (rtm : DirectiveRuntime) (hkeys : ∀ k ∈ keys, valuesGet source k = []) :
    extractKeys source keys rtm = (rtm, none) := by
  induction keys with
  | nil => rfl
  | cons k keys ih =>
    have hk := hkeys k (List.mem_cons_self _ _)
    have ih1 := ih (fun y hy => hkeys y (List.mem_cons_of_mem _ hy))
    simp [extractKeys, hk, ih1]

/-! ### Lemmas on `NewRequest` -/

theorem mem_valuesKeys_valuesSet (v : Values) (key : String) (vals : List String) (k : String) :
    k ∈ valuesKeys (valuesSet v key vals) ↔ k = key ∨ k ∈ valuesKeys v := by
  induction v with
  | nil => simp [valuesSet, valuesKeys]
  | cons p rest ih =>
    obtain ⟨a, b⟩ := p
    by_cases h : a = key
    · subst h
      simp [valuesSet, valuesKeys]
    · simp only [valuesKeys] at ih
      simp only [valuesSet, h, if_false, valuesKeys, List.map_cons, List.mem_cons, ih]
      tauto

theorem valuesGet_valuesSet (v : Values) (key : String) (vals : List String) :
    valuesGet (valuesSet v key vals) key = vals := by
  induction v with
  | nil => simp [valuesSet, valuesGet]
  | cons p rest ih =>
    obtain ⟨a, b⟩ := p
    by_cases h : a = key
    · simp [valuesSet, valuesGet, h]
    · simp [valuesSet, valuesGet, h, ih]

/-- An absent optional field is skipped: the request is as it was. -/
theorem encodeField_absent (overrides : String → Option Executor) (fr : FieldResolver)
    (v : FieldValue) (req : Request) (hp : fr.isPatch = true) (hv : v.valid = false) :
    encodeField overrides fr v req = (req, none) := by
  simp [encodeField, hp, hv]

theorem encodeFields_skip_absent (overrides : String → Option Executor)
    (pre post : List FieldResolver) (vpre vpost : List FieldValue) (fr : FieldResolver)
    (v : FieldValue) (req : Request) (hp : fr.isPatch = true) (hv : v.valid = false)
    (hlen : pre.length = vpre.length) :
    encodeFields overrides (pre ++ fr :: post) (vpre ++ v :: vpost) req
      = encodeFields overrides (pre ++ post) (vpre ++ vpost) req := by
  induction pre generalizing vpre req with
  | nil =>
    cases vpre with
    | nil =>
      simp only [List.nil_append, encodeFields, encodeField_absent overrides fr v req hp hv]
    | cons a as => simp at hlen
  | cons f pre ih =>
    cases vpre with
    | nil => simp at hlen
    | cons a as =>
      have hl : pre.length = as.length := by simpa using hlen
      simp only [List.cons_append, encodeFields]
      cases hf : encodeField overrides f a req with
      | mk req1 err =>
        cases err with
        | none => simp only [List.append_eq, ih as req1 hl]
        | some e => simp only [List.append_eq, ih as req1 hl]

/-- A present optional `query` field writes its strings under its key. -/
theorem encodeField_query (overrides : String → Option Executor) (fr : FieldResolver)
    (v : FieldValue) (req : Request) (key : String) (more vals : List String)
    (hov : fr.override = none)
    (hchain : fr.directives = [(⟨"query", key :: more⟩, queryEncode)])
    (hv : v.valid = true) (henc : fr.type.toStrings v.value = .ok vals) :
    encodeField overrides fr v req
      = ({ req with query := valuesSet req.query key vals }, none) := by
  simp [encodeField, hv, runField, hov, hchain, runChain, queryEncode, encodeWith,
    DirectiveRuntime.isFieldSet, DirectiveRuntime.markFieldSet, henc]

/-- A present optional `form` field writes its strings under its key. -/
theorem encodeField_form (overrides : String → Option Executor) (fr : FieldResolver)
    (v : FieldValue) (req : Request) (key : String) (more vals : List String)
    (hov : fr.override = none)
    (hchain : fr.directives = [(⟨"form", key :: more⟩, formEncode)])
    (hv : v.valid = true) (henc : fr.type.toStrings v.value = .ok vals) :
    encodeField overrides fr v req
      = ({ req with form := valuesSet req.form key vals }, none) := by
  simp [encodeField, hv, runField, hov, hchain, runChain, formEncode, encodeWith,
    DirectiveRuntime.isFieldSet, DirectiveRuntime.markFieldSet, henc]

/-- The keys written by the optional source fields of an instance. -/
theorem encodeFields_optional_keys (overrides : String → Option Executor)
    (tree : List FieldResolver) (inst : List FieldValue) (req : Request)
    (hsrc : ∀ fr ∈ tree, IsOptionalSource fr)
    (henc : ∀ p ∈ tree.zip inst, p.2.valid = true →
      ∃ vals, p.1.type.toStrings p.2.value = .ok vals) :
    (encodeFields overrides tree inst req).2 = [] ∧
    (∀ k, k ∈ valuesKeys (encodeFields overrides tree inst req).1.query ↔
      k ∈ valuesKeys req.query ∨ k ∈ presentKeys "query" tree inst) ∧
    (∀ k, k ∈ valuesKeys (encodeFields overrides tree inst req).1.form ↔
      k ∈ valuesKeys req.form ∨ k ∈ presentKeys "form" tree inst) := by
  induction tree generalizing inst req with
  | nil => simp [encodeFields, presentKeys]
  | cons fr tree ih =>
    cases inst with
    | nil => simp [encodeFields, presentKeys]
    | cons v inst =>
      have hsrc1 : ∀ f ∈ tree, IsOptionalSource f :=
        fun f hf => hsrc f (List.mem_cons_of_mem _ hf)
      have henc1 : ∀ p ∈ tree.zip inst, p.2.valid = true →
          ∃ vals, p.1.type.toStrings p.2.value = .ok vals :=
        fun p hp => henc p (by simp [List.zip_cons_cons, hp])
      obtain ⟨hpatch, hov, hdir⟩ := hsrc fr (List.mem_cons_self _ _)
      cases hvalid : v.valid with
      | false =>
        have h0 := encodeField_absent overrides fr v req hpatch hvalid
        have ih1 := ih inst req hsrc1 henc1
        simp only [encodeFields, h0, presentKeys, hvalid, Bool.false_eq_true, if_false]
        exact ih1
      | true =>
        obtain ⟨vals, hvals⟩ := henc (fr, v) (by simp [List.zip_cons_cons]) hvalid
        rcases hdir with ⟨key, more, hchain⟩ | ⟨key, more, hchain⟩
        · have h1 := encodeField_query overrides fr v req key more vals hov hchain hvalid hvals
          have ih1 := ih inst { req with query := valuesSet req.query key vals } hsrc1 henc1
          simp only [encodeFields, h1, presentKeys, hvalid, if_true, hchain]
          refine ⟨ih1.1, ?_, ?_⟩
          · intro k
            rw [ih1.2.1 k]
            simp [mem_valuesKeys_valuesSet]
            tauto
          · intro k
            rw [ih1.2.2 k]
            simp
        · have h1 := encodeField_form overrides fr v req key more vals hov hchain hvalid hvals
          have ih1 := ih inst { req with form := valuesSet req.form key vals } hsrc1 henc1
          simp only [encodeFields, h1, presentKeys, hvalid, if_true, hchain]
          refine ⟨ih1.1, ?_, ?_⟩
          · intro k
            rw [ih1.2.1 k]
            simp
          · intro k
            rw [ih1.2.2 k]
            simp [mem_valuesKeys_valuesSet]
            tauto

/-! ### The registration contract -/

/-- C1: for every registry state, executor (nil or not) and force flag,
`RegisterDirective` with the name "decoder" or "encoder" panics with the
reserved-name error and leaves both namespaces as they were. -/
theorem registerDirective_reserved {R E : Type} (s : Registry R E) (name : String)
    (executor : Option (DirectiveExecutor R E)) (force : List Bool)
    (h : name = "decoder" ∨ name = "encoder") :
    RegisterDirective s name executor force = (s, some (.reservedExecutorName name)) := by
  apply registerDirective_reserved_eq
  unfold isReserved reservedExecutorNames
  rcases h with h | h <;> simp [h]

/-- The reserved name `encoder`, a non-nil executor and force set, on the initial registry. -/
theorem registerDirective_reserved_witness :
    ("encoder" = "decoder" ∨ "encoder" = "encoder") ∧
    RegisterDirective (initialRegistry sampleBuiltins) "encoder" (some (sampleExecutor 7)) [true]
      = (initialRegistry sampleBuiltins, some (.reservedExecutorName "encoder")) :=
  ⟨Or.inr rfl,
    registerDirective_reserved (initialRegistry sampleBuiltins) "encoder"
      (some (sampleExecutor 7)) [true] (Or.inr rfl)⟩

/-- C2: in every reachable registry state, registering a non-reserved name that
is already registered, with a non-nil executor and force absent or false,
panics with the duplicate-name error and leaves both namespaces as they were. -/
theorem registerDirective_duplicate {R E : Type} (b : Builtins R E) (s : Registry R E)
    (hs : Reachable b s) (name : String) (e : DirectiveExecutor R E) (force : List Bool)
    (hres : ¬ isReserved name)
    (hreg : (s.decoderNamespace.LookupExecutor name).isSome ∨
      (s.encoderNamespace.LookupExecutor name).isSome)
    (hf : force.head? ≠ some true) :
    RegisterDirective s name (some e) force = (s, some (.duplicateExecutor name)) := by
  have hp := paired_of_reachable b s hs name hres
  have hd : (s.decoderNamespace.executors name).isSome = true := by
    rcases hreg with h | h
    · exact h
    · exact hp.2 h
  have hnf : forced force = false := by
    cases hforced : forced force with
    | false => rfl
    | true => exact absurd ((forced_eq_true_iff force).1 hforced) hf
  rw [registerDirective_eq s name e force hres]
  simp [hd, hnf]

/-- The built-in name `form` registered again without force, on the initial registry. -/
theorem registerDirective_duplicate_witness :
    Reachable sampleBuiltins (initialRegistry sampleBuiltins) ∧
    ¬ isReserved "form" ∧
    (((initialRegistry sampleBuiltins).decoderNamespace.LookupExecutor "form").isSome ∨
      ((initialRegistry sampleBuiltins).encoderNamespace.LookupExecutor "form").isSome) ∧
    [false].head? ≠ some true ∧
    RegisterDirective (initialRegistry sampleBuiltins) "form" (some (sampleExecutor 7)) [false]
      = (initialRegistry sampleBuiltins, some (.duplicateExecutor "form")) :=
  ⟨.init, by decide, Or.inl rfl, by decide,
    registerDirective_duplicate sampleBuiltins (initialRegistry sampleBuiltins) .init "form"
      (sampleExecutor 7) [false] (by decide) (Or.inl rfl) (by decide)⟩

/-- C3: for every non-reserved name and non-nil executor `e`, if the name is
registered in neither namespace or force is true, `RegisterDirective` returns
without panic, and afterwards the decode namespace holds under that name an
executor that behaves as `e.Decode` on every runtime and the encode namespace
one that behaves as `e.Encode` (whatever was registered before). -/
theorem registerDirective_success {R E : Type} (s : Registry R E) (name : String)
    (e : DirectiveExecutor R E) (force : List Bool) (hres : ¬ isReserved name)
    (h : (s.decoderNamespace.LookupExecutor name = none ∧
        s.encoderNamespace.LookupExecutor name = none) ∨ force.head? = some true) :
    (RegisterDirective s name (some e) force).2 = none ∧
    (∃ d, (RegisterDirective s name (some e) force).1.decoderNamespace.LookupExecutor name
        = some d ∧ ∀ dr, d dr = e.Decode dr) ∧
    (∃ c, (RegisterDirective s name (some e) force).1.encoderNamespace.LookupExecutor name
        = some c ∧ ∀ dr, c dr = e.Encode dr) := by
  rw [registerDirective_eq s name e force hres]
  rcases h with ⟨hd, he⟩ | hf
  · simp only [Namespace.LookupExecutor] at hd he
    simp [Namespace.LookupExecutor, hd, he]
  · have hforced : forced force = true := (forced_eq_true_iff force).2 hf
    simp [Namespace.LookupExecutor, hforced]

/-- The built-in name `form` replaced with force, on the initial registry. -/
theorem registerDirective_success_witness :
    ¬ isReserved "form" ∧ [true].head? = some true ∧
    (RegisterDirective (initialRegistry sampleBuiltins) "form" (some (sampleExecutor 7)) [true]).2
      = none ∧
    (∃ d, (RegisterDirective (initialRegistry sampleBuiltins) "form" (some (sampleExecutor 7))
        [true]).1.decoderNamespace.LookupExecutor "form" = some d ∧
      ∀ dr, d dr = (sampleExecutor 7).Decode dr) ∧
    (∃ c, (RegisterDirective (initialRegistry sampleBuiltins) "form" (some (sampleExecutor 7))
        [true]).1.encoderNamespace.LookupExecutor "form" = some c ∧
      ∀ dr, c dr = (sampleExecutor 7).Encode dr) :=
  ⟨by decide, rfl,
    registerDirective_success (initialRegistry sampleBuiltins) "form" (sampleExecutor 7) [true]
      (by decide) (Or.inr rfl)⟩

/-- C4: in every reachable registry state, for every name, executor and force
flag, either `RegisterDirective` returns and the name is registered in both
namespaces, or it panics and both namespaces are exactly as before the call. -/
theorem registerDirective_atomic {R E : Type} (b : Builtins R E) (s : Registry R E)
    (hs : Reachable b s) (name : String) (executor : Option (DirectiveExecutor R E))
    (force : List Bool) :
    ((RegisterDirective s name executor force).2 = none ∧
      ((RegisterDirective s name executor force).1.decoderNamespace.LookupExecutor name).isSome ∧
      ((RegisterDirective s name executor force).1.encoderNamespace.LookupExecutor name).isSome) ∨
    ((∃ p, (RegisterDirective s name executor force).2 = some p) ∧
      (RegisterDirective s name executor force).1 = s) := by
  by_cases hres : isReserved name
  · right; rw [registerDirective_reserved_eq s name executor force hres]; exact ⟨⟨_, rfl⟩, rfl⟩
  · cases executor with
    | none => right; rw [registerDirective_nil_eq s name force hres]; exact ⟨⟨_, rfl⟩, rfl⟩
    | some e =>
      have hp := paired_of_reachable b s hs name hres
      simp only [Namespace.LookupExecutor] at hp
      rw [registerDirective_eq s name e force hres]
      by_cases hf : forced force = true
      · left; simp [Namespace.LookupExecutor, hf]
      · by_cases hd : (s.decoderNamespace.executors name).isSome = true
        · right; simp [hf, hd]
        · have he : ¬ (s.encoderNamespace.executors name).isSome = true := fun h => hd (hp.2 h)
          left; simp [Namespace.LookupExecutor, hf, hd, he]

/-- The fresh name `path` registered on the initial registry. -/
theorem registerDirective_atomic_witness :
    Reachable sampleBuiltins (initialRegistry sampleBuiltins) ∧
    (((RegisterDirective (initialRegistry sampleBuiltins) "path" (some (sampleExecutor 7)) []).2
        = none ∧
      ((RegisterDirective (initialRegistry sampleBuiltins) "path" (some (sampleExecutor 7))
        []).1.decoderNamespace.LookupExecutor "path").isSome ∧
      ((RegisterDirective (initialRegistry sampleBuiltins) "path" (some (sampleExecutor 7))
        []).1.encoderNamespace.LookupExecutor "path").isSome) ∨
    ((∃ p, (RegisterDirective (initialRegistry sampleBuiltins) "path" (some (sampleExecutor 7))
        []).2 = some p) ∧
      (RegisterDirective (initialRegistry sampleBuiltins) "path" (some (sampleExecutor 7)) []).1
        = initialRegistry sampleBuiltins)) :=
  ⟨.init,
    registerDirective_atomic sampleBuiltins (initialRegistry sampleBuiltins) .init "path"
      (some (sampleExecutor 7)) []⟩

/-- C5: for every registry state, non-reserved name and force flag,
`RegisterDirective` with a nil executor panics with the nil-executor error and
leaves both namespaces as they were, whether or not the name is registered. -/
theorem registerDirective_nil_executor {R E : Type} (s : Registry R E) (name : String)
    (force : List Bool) (hres : ¬ isReserved name) :
    RegisterDirective s name (none : Option (DirectiveExecutor R E)) force
      = (s, some .nilDirectiveExecutor) :=
  registerDirective_nil_eq s name force hres

/-- The fresh name `path` with a nil executor and force set, on the initial registry. -/
theorem registerDirective_nil_executor_witness :
    ¬ isReserved "path" ∧
    RegisterDirective (initialRegistry sampleBuiltins) "path" none [true]
      = (initialRegistry sampleBuiltins, some .nilDirectiveExecutor) :=
  ⟨by decide,
    registerDirective_nil_executor (initialRegistry sampleBuiltins) "path" [true] (by decide)⟩

/-- C10: a `RegisterDirective` call, returning or panicking, leaves the lookup
of every name other than its own unchanged in both namespaces and removes no
entry; and in every reachable state the `decoder` entry of the decode namespace
and the `encoder` entry of the encode namespace are, also after the call, the
no-op executors. -/
theorem registerDirective_frame {R E : Type} (b : Builtins R E) (s : Registry R E)
    (name : String) (executor : Option (DirectiveExecutor R E)) (force : List Bool) :
    (∀ n, n ≠ name →
      (RegisterDirective s name executor force).1.decoderNamespace.LookupExecutor n
          = s.decoderNamespace.LookupExecutor n ∧
      (RegisterDirective s name executor force).1.encoderNamespace.LookupExecutor n
          = s.encoderNamespace.LookupExecutor n) ∧
    (∀ n, ((s.decoderNamespace.LookupExecutor n).isSome →
        ((RegisterDirective s name executor force).1.decoderNamespace.LookupExecutor n).isSome) ∧
      ((s.encoderNamespace.LookupExecutor n).isSome →
        ((RegisterDirective s name executor force).1.encoderNamespace.LookupExecutor n).isSome)) ∧
    (Reachable b s →
      (s.decoderNamespace.LookupExecutor "decoder"
          = asOwlDirectiveExecutor (noopDirective (R := R) (E := E)).Decode ∧
        s.encoderNamespace.LookupExecutor "encoder"
          = asOwlDirectiveExecutor (noopDirective (R := R) (E := E)).Encode) ∧
      ((RegisterDirective s name executor force).1.decoderNamespace.LookupExecutor "decoder"
          = asOwlDirectiveExecutor (noopDirective (R := R) (E := E)).Decode ∧
        (RegisterDirective s name executor force).1.encoderNamespace.LookupExecutor "encoder"
          = asOwlDirectiveExecutor (noopDirective (R := R) (E := E)).Encode)) :=
  ⟨fun n hn => registerDirective_lookup_of_ne s name executor force n hn,
    fun n => registerDirective_lookup_isSome s name executor force n,
    fun hs => ⟨indicatorsKept_of_reachable b s hs,
      indicatorsKept_of_reachable b _ (.step s name executor force hs)⟩⟩

/-- The name `form` replaced with force: the entries `query` and `decoder` stay. -/
theorem registerDirective_frame_witness :
    Reachable sampleBuiltins (initialRegistry sampleBuiltins) ∧
    "query" ≠ "form" ∧
    (RegisterDirective (initialRegistry sampleBuiltins) "form" (some (sampleExecutor 7))
        [true]).1.decoderNamespace.LookupExecutor "query"
      = (initialRegistry sampleBuiltins).decoderNamespace.LookupExecutor "query" ∧
    (RegisterDirective (initialRegistry sampleBuiltins) "form" (some (sampleExecutor 7))
        [true]).1.decoderNamespace.LookupExecutor "decoder"
      = asOwlDirectiveExecutor (noopDirective (R := Nat) (E := String)).Decode :=
  ⟨.init, by decide,
    ((registerDirective_frame sampleBuiltins (initialRegistry sampleBuiltins) "form"
      (some (sampleExecutor 7)) [true]).1 "query" (by decide)).1,
    ((registerDirective_frame sampleBuiltins (initialRegistry sampleBuiltins) "form"
      (some (sampleExecutor 7)) [true]).2.2 .init).2.1⟩

/-! ### The resolver tree builder and the engine -/

/-- C7: when a field's chain starts with `form=<keys>`, the first key of the
directive under which the request form holds strings is `key`, and these
strings cannot be converted to the field's type, `Decode` returns no result but
the collected errors, among them the `InvalidFieldError` with the field's name,
the directive `form`, the key and the raw strings; that error is the first
reported when the fields before decode, whatever the fields after do. -/
theorem decode_invalid_form_value (overrides : String → Option Executor)
    (tree : List FieldResolver) (req : Request) (fr : FieldResolver)
    (before after : List String) (key cause : String)
    (rest : List (DirectiveSpec × Executor))
    (hmem : fr ∈ tree) (hov : fr.override = none)
    (hchain : fr.directives = (⟨"form", before ++ key :: after⟩, formDecode) :: rest)
    (hbefore : ∀ k ∈ before, valuesGet req.form k = [])
    (hne : valuesGet req.form key ≠ [])
    (hconv : fr.type.fromStrings (valuesGet req.form key) = .error cause) :
    ∃ errs, Decode overrides tree req = .error errs ∧
      (⟨fr.name, "form", key, some (valuesGet req.form key), cause⟩ : InvalidFieldError) ∈ errs ∧
      ∀ pre post, tree = pre ++ fr :: post →
        (∀ f ∈ pre, ∃ v, decodeField overrides req f = .ok v) →
        errs.head? = some ⟨fr.name, "form", key, some (valuesGet req.form key), cause⟩ := by
  apply decode_error_of_field overrides tree req fr _ hmem
  have hx := extractKeys_conversion_error req.form before after key cause
    ⟨⟨"form", before ++ key :: after⟩, fr.type, fr.type.zero, req, []⟩ rfl hbefore hne hconv
  simp only [decodeField, runField, hov, hchain, runChain, formDecode, hx, invalidField]

/-- The request of `TestPatchField_DecodeValueFailed`: `age=eighteen` on `AccountPatch`. -/
theorem decode_invalid_form_value_witness :
    ∃ errs, Decode noOverrides (treeOf sampleDecoders AccountPatch)
        ⟨"GET", "/", [], [("email", ["abc@example.com"]), ("age", ["eighteen"])]⟩ = .error errs ∧
      (⟨"Age", "form", "age", some ["eighteen"], "invalid integer"⟩ : InvalidFieldError) ∈ errs ∧
      ∀ pre post, treeOf sampleDecoders AccountPatch
          = pre ++ ⟨"Age", ["Age"], intType, true, [(⟨"form", ["age"]⟩, formDecode)], none⟩ :: post →
        (∀ f ∈ pre, ∃ v, decodeField noOverrides
          ⟨"GET", "/", [], [("email", ["abc@example.com"]), ("age", ["eighteen"])]⟩ f = .ok v) →
        errs.head? = some ⟨"Age", "form", "age", some ["eighteen"], "invalid integer"⟩ :=
  decode_invalid_form_value noOverrides (treeOf sampleDecoders AccountPatch)
    ⟨"GET", "/", [], [("email", ["abc@example.com"]), ("age", ["eighteen"])]⟩
    ⟨"Age", ["Age"], intType, true, [(⟨"form", ["age"]⟩, formDecode)], none⟩
    [] [] "age" "invalid integer" [] (List.Mem.tail _ (List.Mem.head _)) rfl rfl
    (fun _ hk => nomatch hk) (by decide) rfl

/-- C8: when a field's chain is `form=<keys>` followed by `required`, and the
request form holds no string under any key of the directive, `Decode` returns
no result but the collected errors, among them the `InvalidFieldError` with
the field's name, the directive `required`, an empty key and no value; that
error is the first reported when the fields before decode. -/
theorem decode_required_missing (overrides : String → Option Executor)
    (tree : List FieldResolver) (req : Request) (fr : FieldResolver)
    (keys args : List String) (rest : List (DirectiveSpec × Executor))
    (hmem : fr ∈ tree) (hov : fr.override = none)
    (hchain : fr.directives
      = (⟨"form", keys⟩, formDecode) :: (⟨"required", args⟩, requiredDecode) :: rest)
    (hkeys : ∀ k ∈ keys, valuesGet req.form k = []) :
    ∃ errs, Decode overrides tree req = .error errs ∧
      (⟨fr.name, "required", "", none, "missing required field"⟩ : InvalidFieldError) ∈ errs ∧
      ∀ pre post, tree = pre ++ fr :: post →
        (∀ f ∈ pre, ∃ v, decodeField overrides req f = .ok v) →
        errs.head? = some ⟨fr.name, "required", "", none, "missing required field"⟩ := by
  apply decode_error_of_field overrides tree req fr _ hmem
  have hx := extractKeys_nothing_found req.form keys
    ⟨⟨"form", keys⟩, fr.type, fr.type.zero, req, []⟩ hkeys
  simp only [decodeField, runField, hov, hchain, runChain, formDecode, hx, requiredDecode,
    invalidField]
  rfl

/-- The request of `TestDirectiveRequired_Decode_RequiredFieldMissing`: only `color` is given. -/
theorem decode_required_missing_witness :
    ∃ errs, Decode noOverrides (treeOf sampleDecoders RequiredQuery)
        ⟨"GET", "/", [], [("color", ["red"])]⟩ = .error errs ∧
      (⟨"CreatedAt", "required", "", none, "missing required field"⟩ : InvalidFieldError)
        ∈ errs ∧
      ∀ pre post, treeOf sampleDecoders RequiredQuery
          = pre ++ ⟨"CreatedAt", ["CreatedAt"], timeType, false,
              [(⟨"form", ["created_at"]⟩, formDecode), (⟨"required", []⟩, requiredDecode)],
              none⟩ :: post →
        (∀ f ∈ pre, ∃ v, decodeField noOverrides ⟨"GET", "/", [], [("color", ["red"])]⟩ f
          = .ok v) →
        errs.head? = some ⟨"CreatedAt", "required", "", none, "missing required field"⟩ :=
  decode_required_missing noOverrides (treeOf sampleDecoders RequiredQuery)
    ⟨"GET", "/", [], [("color", ["red"])]⟩
    ⟨"CreatedAt", ["CreatedAt"], timeType, false,
      [(⟨"form", ["created_at"]⟩, formDecode), (⟨"required", []⟩, requiredDecode)], none⟩
    ["created_at"] [] [] (List.Mem.head _) rfl rfl
    (fun k hk => by
      simp only [List.mem_singleton] at hk
      subst hk
      rfl)

/-- C9: in `NewRequest`, an optional field whose presence flag is false
contributes nothing, whatever its stored value: the call gives what it gives on
the struct without that field. A present optional field tagged `query=<key>`
or `form=<key>` has its strings written under its key. And when every field is an optional
field with the single directive `query=<key>` or `form=<key>` (and the present
values convert to strings), the call succeeds and the keys of the produced
query and form are exactly the keys of the present fields. -/
theorem newRequest_presence (overrides : String → Option Executor) :
    (∀ (pre post : List FieldResolver) (vpre vpost : List FieldValue) (fr : FieldResolver)
        (v : FieldValue) (method path : String),
      fr.isPatch = true → v.valid = false → pre.length = vpre.length →
      NewRequest overrides (pre ++ fr :: post) method path (vpre ++ v :: vpost)
        = NewRequest overrides (pre ++ post) method path (vpre ++ vpost)) ∧
    (∀ (fr : FieldResolver) (v : FieldValue) (req : Request) (key : String)
        (more vals : List String),
      fr.override = none → fr.directives = [(⟨"query", key :: more⟩, queryEncode)] →
      v.valid = true → fr.type.toStrings v.value = .ok vals →
      valuesGet (encodeField overrides fr v req).1.query key = vals) ∧
    (∀ (fr : FieldResolver) (v : FieldValue) (req : Request) (key : String)
        (more vals : List String),
      fr.override = none → fr.directives = [(⟨"form", key :: more⟩, formEncode)] →
      v.valid = true → fr.type.toStrings v.value = .ok vals →
      valuesGet (encodeField overrides fr v req).1.form key = vals) ∧
    (∀ (tree : List FieldResolver) (inst : List FieldValue) (method path : String),
      (∀ fr ∈ tree, IsOptionalSource fr) →
      (∀ p ∈ tree.zip inst, p.2.valid = true →
        ∃ vals, p.1.type.toStrings p.2.value = .ok vals) →
      ∃ req, NewRequest overrides tree method path inst = .ok req ∧
        (∀ k, k ∈ valuesKeys req.query ↔ k ∈ presentKeys "query" tree inst) ∧
        (∀ k, k ∈ valuesKeys req.form ↔ k ∈ presentKeys "form" tree inst)) := by
  refine ⟨?_, ?_, ?_, ?_⟩
  · intro pre post vpre vpost fr v method path hp hv hlen
    unfold NewRequest
    rw [encodeFields_skip_absent overrides pre post vpre vpost fr v _ hp hv hlen]
  · intro fr v req key more vals hov hchain hv henc
    rw [encodeField_query overrides fr v req key more vals hov hchain hv henc]
    exact valuesGet_valuesSet req.query key vals
  · intro fr v req key more vals hov hchain hv henc
    rw [encodeField_form overrides fr v req key more vals hov hchain hv henc]
    exact valuesGet_valuesSet req.form key vals
  · intro tree inst method path hsrc henc
    have h := encodeFields_optional_keys overrides tree inst ⟨method, path, [], []⟩ hsrc henc
    refine ⟨(encodeFields overrides tree inst ⟨method, path, [], []⟩).1, ?_, ?_, ?_⟩
    · unfold NewRequest
      rw [h.1]
    · intro k
      rw [h.2.1 k]
      simp [valuesKeys]
    · intro k
      rw [h.2.2 k]
      simp [valuesKeys]

/-- The first case of `TestPatchField_NewRequest`: `Age` holds 18 but is absent. -/
theorem newRequest_presence_witness :
    treeOf sampleEncoders ListQuery = [usernameResolver, ageResolver, stateResolver] ∧
    NewRequest noOverrides (treeOf sampleEncoders ListQuery) "GET" "/list" sampleListQuery
      = NewRequest noOverrides [usernameResolver, stateResolver] "GET" "/list"
          [⟨.str "ggicci", true⟩, ⟨.strs [], false⟩] ∧
    (∃ req, NewRequest noOverrides (treeOf sampleEncoders ListQuery) "GET" "/list"
        sampleListQuery = .ok req ∧
      (∀ k, k ∈ valuesKeys req.query ↔
        k ∈ presentKeys "query" (treeOf sampleEncoders ListQuery) sampleListQuery) ∧
      (∀ k, k ∈ valuesKeys req.form ↔
        k ∈ presentKeys "form" (treeOf sampleEncoders ListQuery) sampleListQuery)) :=
  ⟨rfl,
   (newRequest_presence noOverrides).1 [usernameResolver] [stateResolver]
      [⟨.str "ggicci", true⟩] [⟨.strs [], false⟩] ageResolver ⟨.int 18, false⟩ "GET" "/list"
      rfl rfl rfl,
   (newRequest_presence noOverrides).2.2.2 (treeOf sampleEncoders ListQuery) sampleListQuery
      "GET" "/list"
      (fun fr hfr => by
        have h : fr ∈ [usernameResolver, ageResolver, stateResolver] := hfr
        simp only [List.mem_cons, List.mem_singleton, List.not_mem_nil, or_false] at h
        rcases h with h | h | h <;> subst h <;> exact ⟨rfl, rfl, Or.inl ⟨_, _, rfl⟩⟩)
      (fun p hp hv => by
        have h : p ∈ [(usernameResolver, (⟨.str "ggicci", true⟩ : FieldValue)),
            (ageResolver, ⟨.int 18, false⟩), (stateResolver, ⟨.strs [], false⟩)] := hp
        simp only [List.mem_cons, List.mem_singleton, List.not_mem_nil, or_false] at h
        rcases h with h | h | h <;> subst h
        · exact ⟨["ggicci"], rfl⟩
        · cases hv
        · cases hv)⟩

end Httpin
